import Mathlib

/-!
Verification of the filetype-core library (src/src/lib.rs): a magic-number
file type identification engine with batch/recursive path traversal and
result aggregation utilities.

Bytes are modelled as `List Nat`, paths as `String`. The signature table
(`get_magic_numbers`, defined in src/src/magicnums.rs which is not part of
the sources available here) is modelled from the spec as an arbitrary
ordered list of `SignatureEntry` values, so all functions take the table as
an explicit parameter. The external sniffing oracle (the `infer` crate) is
modelled as an opaque function from bytes to an optional MIME string, and
the filesystem as an explicit record of metadata/read/walk operations.
-/

/-- Modelled from the spec: an entry of the Signature Table from
src/src/magicnums.rs (not available under src/): a byte offset, the magic
byte sequence to match exactly, and a human-readable description. -/
structure SignatureEntry where
  offset : Nat
  magic : List Nat
  description : String
deriving DecidableEq

/-- Mirrors `struct FileInfo` in src/src/lib.rs. `path` is a string
(`PathBuf::new()` is the empty string), `size` is `none` for directories. -/
structure FileInfo where
  path : String
  description : String
  is_directory : Bool
  size : Option Nat
deriving DecidableEq

/-- Mirrors `enum FileProcessingError` in src/src/lib.rs: `Io`,
`PathNotFound`, `WalkDir`. The wrapped error payloads are opaque strings. -/
inductive FileProcessingError where
  | ioError : String → FileProcessingError
  | pathNotFound : String → FileProcessingError
  | walkDirError : String → FileProcessingError
deriving DecidableEq

/-- The slice `bytes[offset .. offset + len]` of Rust, as drop-then-take. -/
def sliceOf (bytes : List Nat) (offset len : Nat) : List Nat :=
  (bytes.drop offset).take len

/-- The match condition of the loop body of `identify_from_bytes`:
`bytes.len() >= entry.offset + entry.magic.len()` and the slice equals the
magic bytes. -/
def Matches (bytes : List Nat) (e : SignatureEntry) : Prop :=
  e.offset + e.magic.length ≤ bytes.length ∧
    sliceOf bytes e.offset e.magic.length = e.magic

instance (bytes : List Nat) (e : SignatureEntry) : Decidable (Matches bytes e) := by
  unfold Matches; infer_instance

/-- The `for entry in get_magic_numbers()` loop of `identify_from_bytes`:
return the first table entry whose guarded slice comparison succeeds. -/
def firstTableMatch (bytes : List Nat) : List SignatureEntry → Option SignatureEntry
  | [] => none
  | e :: rest =>
    if Matches bytes e then some e else firstTableMatch bytes rest

/-- Mirrors `identify_from_bytes` in src/src/lib.rs, with the signature
table and the `infer::get` oracle (returning the MIME type string) as
explicit parameters. -/
def identify_from_bytes (table : List SignatureEntry)
    (oracle : List Nat → Option String) (bytes : List Nat) : Option FileInfo :=
  match firstTableMatch bytes table with
  | some e => some ⟨"", e.description, false, some bytes.length⟩
  | none =>
    match oracle bytes with
    | some mime => some ⟨"", mime, false, some bytes.length⟩
    | none => none

/-- Checked byte-by-byte extraction of `bytes[offset .. offset+len]`: each
index access is bounds-checked, returning `none` on any out-of-range index
(a Rust slice-index panic). -/
def checkedSlice (bytes : List Nat) (offset : Nat) : Nat → Option (List Nat)
  | 0 => some []
  | len + 1 =>
    match bytes.get? offset with
    | none => none
    | some b =>
      match checkedSlice bytes (offset + 1) len with
      | none => none
      | some rest => some (b :: rest)

/-- The table loop of `identify_from_bytes` with every slice access
bounds-checked: `.error ()` marks an out-of-bounds index (a panic). -/
def firstTableMatchChecked (bytes : List Nat) :
    List SignatureEntry → Except Unit (Option SignatureEntry)
  | [] => .ok none
  | e :: rest =>
    if e.offset + e.magic.length ≤ bytes.length then
      match checkedSlice bytes e.offset e.magic.length with
      | none => .error ()
      | some s =>
        if s = e.magic then .ok (some e) else firstTableMatchChecked bytes rest
    else firstTableMatchChecked bytes rest

/-- Bounds-checked version of `identify_from_bytes`: propagates a slice
indexing panic as `.error ()`. -/
def identify_from_bytes_checked (table : List SignatureEntry)
    (oracle : List Nat → Option String) (bytes : List Nat) :
    Except Unit (Option FileInfo) :=
  match firstTableMatchChecked bytes table with
  | .error e => .error e
  | .ok (some e) => .ok (some ⟨"", e.description, false, some bytes.length⟩)
  | .ok none =>
    match oracle bytes with
    | some mime => .ok (some ⟨"", mime, false, some bytes.length⟩)
    | none => .ok none

/-- The example table from the spec: the 4-byte PNG magic at offset 0. -/
def spec_example_table : List SignatureEntry :=
  [⟨0, [0x89, 0x50, 0x4E, 0x47], "PNG image"⟩]

/-- An oracle that recognizes nothing. -/
def noOracle : List Nat → Option String := fun _ => none

theorem checkedSlice_of_le (bytes : List Nat) :
    ∀ (len offset : Nat), offset + len ≤ bytes.length →
      checkedSlice bytes offset len = some (sliceOf bytes offset len) := by
  intro len
  induction len with
  | zero =>
    intro offset _
    simp [checkedSlice, sliceOf]
  | succ n ih =>
    intro offset h
    have hlt : offset < bytes.length := by omega
    have hget : bytes.get? offset = some (bytes.get ⟨offset, hlt⟩) := by
      simp [List.get?_eq_get hlt]
    have hrec := ih (offset + 1) (by omega)
    have hdrop : bytes.drop offset = bytes.get ⟨offset, hlt⟩ :: bytes.drop (offset + 1) := by
      exact List.drop_eq_getElem_cons hlt
    have hunfold : checkedSlice bytes offset (n + 1) =
        match bytes.get? offset with
        | none => none
        | some b =>
          match checkedSlice bytes (offset + 1) n with
          | none => none
          | some rest => some (b :: rest) := rfl
    rw [hunfold, hget, hrec]
    simp only [sliceOf]
    rw [hdrop, List.take_succ_cons]

theorem firstTableMatchChecked_eq (bytes : List Nat) :
    ∀ table, firstTableMatchChecked bytes table = .ok (firstTableMatch bytes table) := by
  intro table
  induction table with
  | nil => rfl
  | cons e rest ih =>
    by_cases hle : e.offset + e.magic.length ≤ bytes.length
    · rw [firstTableMatchChecked, if_pos hle, checkedSlice_of_le bytes e.magic.length e.offset hle]
      by_cases hs : sliceOf bytes e.offset e.magic.length = e.magic
      · have hm : Matches bytes e := ⟨hle, hs⟩
        simp [hs, firstTableMatch, hm]
      · have hm : ¬ Matches bytes e := fun h => hs h.2
        simp [hs, firstTableMatch, hm, ih]
    · have hm : ¬ Matches bytes e := fun h => hle h.1
      rw [firstTableMatchChecked, if_neg hle, ih]
      simp [firstTableMatch, hm]

/-- C9: `identify_from_bytes` is total and never indexes out of bounds:
every slice `bytes[entry.offset .. entry.offset + entry.magic.len()]` is
taken only under the guard `bytes.len() >= entry.offset + entry.magic.len()`,
so the fully bounds-checked version of the function never reaches the panic
case and agrees with the unchecked one, for every buffer (including the
empty one) and every signature table. -/
theorem identify_from_bytes_no_panic (table : List SignatureEntry)
    (oracle : List Nat → Option String) (bytes : List Nat) :
    identify_from_bytes_checked table oracle bytes =
      .ok (identify_from_bytes table oracle bytes) := by
  rw [identify_from_bytes_checked, identify_from_bytes, firstTableMatchChecked_eq]
  cases firstTableMatch bytes table with
  | some e => rfl
  | none => cases oracle bytes <;> rfl

theorem firstTableMatch_mem_first (bytes : List Nat) :
    ∀ (table : List SignatureEntry) (e : SignatureEntry), e ∈ table → Matches bytes e →
      ∃ pre e0 post, table = pre ++ e0 :: post ∧ (∀ x ∈ pre, ¬ Matches bytes x) ∧
        Matches bytes e0 ∧ firstTableMatch bytes table = some e0 := by
  intro table
  induction table with
  | nil => intro e he; exact absurd he (List.not_mem_nil e)
  | cons f rest ih =>
    intro e he hm
    by_cases hf : Matches bytes f
    · exact ⟨[], f, rest, rfl, by simp, hf, by simp [firstTableMatch, hf]⟩
    · have herest : e ∈ rest := by
        rcases List.mem_cons.mp he with h | h
        · exact absurd (h ▸ hm) hf
        · exact h
      obtain ⟨pre, e0, post, heq, hpre, hm0, hfirst⟩ := ih e herest hm
      refine ⟨f :: pre, e0, post, by rw [heq]; rfl, ?_, hm0, ?_⟩
      · intro x hx
        rcases List.mem_cons.mp hx with h | h
        · exact h ▸ hf
        · exact hpre x h
      · simp [firstTableMatch, hf, hfirst]

/-- C1: for every buffer and every table entry whose offset window fits in
the buffer and whose magic bytes match the slice exactly,
`identify_from_bytes` returns a record whose description is that of the
first matching entry in table order: the table splits as
`pre ++ e0 :: post` with nothing in `pre` matching, `e0` matching, and the
returned description being that of `e0` (so later entries are never
considered once one matches). -/
theorem identify_from_bytes_first_match (table : List SignatureEntry)
    (oracle : List Nat → Option String) (bytes : List Nat) (e : SignatureEntry)
    (he : e ∈ table) (hm : Matches bytes e) :
    ∃ pre e0 post, table = pre ++ e0 :: post ∧ (∀ x ∈ pre, ¬ Matches bytes x) ∧
      Matches bytes e0 ∧
      identify_from_bytes table oracle bytes =
        some ⟨"", e0.description, false, some bytes.length⟩ := by
  obtain ⟨pre, e0, post, heq, hpre, hm0, hfirst⟩ := firstTableMatch_mem_first bytes table e he hm
  exact ⟨pre, e0, post, heq, hpre, hm0, by rw [identify_from_bytes, hfirst]⟩

/-- Witness for C1: on the PNG example buffer from the spec, the PNG entry
of the example table matches and `identify_from_bytes` returns its
description. -/
theorem identify_from_bytes_first_match_witness :
    ∃ pre e0 post, spec_example_table = pre ++ e0 :: post ∧
      (∀ x ∈ pre, ¬ Matches [0x89, 0x50, 0x4E, 0x47, 0xAA, 0xBB] x) ∧
      Matches [0x89, 0x50, 0x4E, 0x47, 0xAA, 0xBB] e0 ∧
      identify_from_bytes spec_example_table noOracle [0x89, 0x50, 0x4E, 0x47, 0xAA, 0xBB] =
        some ⟨"", e0.description, false, some 6⟩ :=
  identify_from_bytes_first_match spec_example_table noOracle _
    ⟨0, [0x89, 0x50, 0x4E, 0x47], "PNG image"⟩ (by simp [spec_example_table]) (by decide)

theorem firstTableMatch_eq_none (bytes : List Nat) :
    ∀ table, (∀ e ∈ table, ¬ Matches bytes e) → firstTableMatch bytes table = none := by
  intro table
  induction table with
  | nil => intro _; rfl
  | cons f rest ih =>
    intro h
    have hf : ¬ Matches bytes f := h f (List.mem_cons_self f rest)
    rw [firstTableMatch, if_neg hf]
    exact ih (fun e he => h e (List.mem_cons_of_mem f he))

/-- C2: for every buffer that matches no signature-table entry and on which
the oracle returns nothing, `identify_from_bytes` returns `none` (an absent
result, not an error). -/
theorem identify_from_bytes_unrecognized (table : List SignatureEntry)
    (oracle : List Nat → Option String) (bytes : List Nat)
    (h1 : ∀ e ∈ table, ¬ Matches bytes e) (h2 : oracle bytes = none) :
    identify_from_bytes table oracle bytes = none := by
  rw [identify_from_bytes, firstTableMatch_eq_none bytes table h1, h2]

/-- Witness for C2: the buffer `[0x00, 0x00]` from the spec example matches
no entry of the example table, and with an oracle that finds nothing the
result is absent. -/
theorem identify_from_bytes_unrecognized_witness :
    identify_from_bytes spec_example_table noOracle [0x00, 0x00] = none :=
  identify_from_bytes_unrecognized spec_example_table noOracle [0x00, 0x00]
    (by decide) rfl

/-- Mirrors `identify_many_bytes` in src/src/lib.rs: classify each buffer,
substituting the unknown-type record (`unwrap_or`) where
`identify_from_bytes` returns `None`. -/
def identify_many_bytes (table : List SignatureEntry)
    (oracle : List Nat → Option String) (files : List (List Nat)) : List FileInfo :=
  files.map (fun bytes =>
    (identify_from_bytes table oracle bytes).getD
      ⟨"", "Unknown file type", false, some bytes.length⟩)

/-- C10: `identify_many_bytes` returns exactly one record per input buffer
in input order; at each index the record is the one `identify_from_bytes`
produces for that buffer, and where `identify_from_bytes` is absent it is
the record with description "Unknown file type", `is_directory = false`,
empty path, and size equal to that buffer's length. -/
theorem identify_many_bytes_spec (table : List SignatureEntry)
    (oracle : List Nat → Option String) (files : List (List Nat)) :
    (identify_many_bytes table oracle files).length = files.length ∧
    (∀ i b, files.get? i = some b →
      (identify_many_bytes table oracle files).get? i =
        some (match identify_from_bytes table oracle b with
              | some fi => fi
              | none => ⟨"", "Unknown file type", false, some b.length⟩)) := by
  constructor
  · simp [identify_many_bytes]
  · intro i b hb
    rw [identify_many_bytes, List.get?_map, hb, Option.map_some']
    cases h2 : identify_from_bytes table oracle b <;> simp [h2]

/-- Witness for C10: with the two-buffer input of the spec examples, the
first buffer matches the PNG entry and the second yields the unknown-type
record with the buffer's length as size. -/
theorem identify_many_bytes_spec_witness :
    (identify_many_bytes spec_example_table noOracle
        [[0x89, 0x50, 0x4E, 0x47], [0x00, 0x00]]).length = 2 ∧
    (identify_many_bytes spec_example_table noOracle
        [[0x89, 0x50, 0x4E, 0x47], [0x00, 0x00]]).get? 1 =
      some ⟨"", "Unknown file type", false, some 2⟩ := by
  have h := identify_many_bytes_spec spec_example_table noOracle
    [[0x89, 0x50, 0x4E, 0x47], [0x00, 0x00]]
  refine ⟨h.1, ?_⟩
  have h2 := h.2 1 [0x00, 0x00] rfl
  rw [h2]
  rfl

/-- Mirrors `filter_files` in src/src/lib.rs: keep non-directory records. -/
def filter_files (results : List FileInfo) : List FileInfo :=
  results.filter (fun info => !info.is_directory)

/-- Mirrors `filter_directories` in src/src/lib.rs: keep directory
records. -/
def filter_directories (results : List FileInfo) : List FileInfo :=
  results.filter (fun info => info.is_directory)

/-- Merge two record lists back together, guided by the `is_directory` flag
at each original position: the order-preserving merge by original
position. -/
def mergeByPosition : List FileInfo → List FileInfo → List FileInfo → List FileInfo
  | [], _, _ => []
  | g :: gs, fs, ds =>
    if g.is_directory then
      match ds with
      | d :: ds2 => d :: mergeByPosition gs fs ds2
      | [] => []
    else
      match fs with
      | f :: fs2 => f :: mergeByPosition gs fs2 ds
      | [] => []

/-- C6: `filter_files` and `filter_directories` are disjoint (no record is
in both), each preserves the relative order of the input (is a sublist of
it), and their order-preserving merge by original position reconstructs the
input exactly. -/
theorem filter_files_directories_partition (rs : List FileInfo) :
    (∀ r ∈ filter_files rs, r ∉ filter_directories rs) ∧
    (filter_files rs).Sublist rs ∧ (filter_directories rs).Sublist rs ∧
    mergeByPosition rs (filter_files rs) (filter_directories rs) = rs := by
  refine ⟨?_, List.filter_sublist rs, List.filter_sublist rs, ?_⟩
  · intro r hr hrd
    have h1 : r.is_directory = false := by
      have := List.of_mem_filter hr
      simpa using this
    have h2 : r.is_directory = true := by
      have := List.of_mem_filter hrd
      simpa using this
    rw [h1] at h2
    exact Bool.false_ne_true h2
  · induction rs with
    | nil => rfl
    | cons r rest ih =>
      by_cases hd : r.is_directory
      · simp [filter_files, filter_directories, mergeByPosition, hd] at ih ⊢
        exact ih
      · simp [filter_files, filter_directories, mergeByPosition, hd] at ih ⊢
        exact ih

/-- Mirrors `group_by_type` in src/src/lib.rs. The Rust function folds the
records into a `std::collections::HashMap<String, Vec<FileInfo>>` with
`entry(desc).or_insert_with(Vec::new).push(info)`; a `HashMap` is observable
only through lookup (its iteration order is arbitrary), so the map is
modelled as its lookup function from description to the optional group. -/
def group_by_type (results : List FileInfo) : String → Option (List FileInfo) :=
  results.foldl
    (fun m info => fun d =>
      if d = info.description then some ((m d).getD [] ++ [info]) else m d)
    (fun _ => none)

/-- First-seen order of the description keys of a record list. -/
def firstSeenKeys (results : List FileInfo) : List String :=
  results.foldl
    (fun ks info => if info.description ∈ ks then ks else ks ++ [info.description])
    []

theorem group_by_type_foldl (d : String) :
    ∀ (rs : List FileInfo) (m : String → Option (List FileInfo)),
      rs.foldl
        (fun m info => fun d2 =>
          if d2 = info.description then some ((m d2).getD [] ++ [info]) else m d2)
        m d =
      (if rs.filter (fun info => info.description = d) = [] then m d
       else some ((m d).getD [] ++ rs.filter (fun info => info.description = d))) := by
  intro rs
  induction rs with
  | nil => intro m; simp
  | cons info rest ih =>
    intro m
    rw [List.foldl_cons, ih]
    by_cases hd : info.description = d
    · have hc : (info :: rest).filter (fun x => x.description = d) =
          info :: rest.filter (fun x => x.description = d) := by
        simp [List.filter_cons, hd]
      by_cases hrest : rest.filter (fun x => x.description = d) = []
      · rw [if_pos hrest, if_pos hd.symm, hc, hrest, if_neg (List.cons_ne_nil info [])]
      · rw [if_neg hrest, if_pos hd.symm, hc,
          if_neg (List.cons_ne_nil info (rest.filter (fun x => x.description = d)))]
        simp
    · have hc : (info :: rest).filter (fun x => x.description = d) =
          rest.filter (fun x => x.description = d) := by
        simp [List.filter_cons, hd]
      have hm : (if d = info.description
          then some ((m d).getD [] ++ [info]) else m d) = m d :=
        if_neg (fun h => hd h.symm)
      rw [hc, hm]

/-- C5 (amended): `group_by_type` maps each distinct description to the
ordered sequence of the records carrying it, preserving the relative input
order of records within each group (the group for `d` is exactly the filter
of the input on description `d`), and maps descriptions occurring in no
record to `none`. -/
theorem group_by_type_groups (rs : List FileInfo) (d : String) :
    group_by_type rs d =
      (if rs.filter (fun info => info.description = d) = [] then none
       else some (rs.filter (fun info => info.description = d))) := by
  rw [group_by_type, group_by_type_foldl d rs (fun _ => none)]
  by_cases h : rs.filter (fun info => info.description = d) = []
  · rw [if_pos h, if_pos h]
  · rw [if_neg h, if_neg h]
    simp

/-- Counterexample for C5: the claim that the mapping returned by
`group_by_type` preserves the first-seen insertion order of the description
keys is false: the function returns a `HashMap`, whose observable value is
its lookup function, and two inputs whose first-seen key orders differ
("A" before "B" versus "B" before "A") produce identical maps — so no
reading of the output can recover, let alone preserve, first-seen key
order. -/
theorem group_by_type_no_key_order :
    ¬ ∃ keyOrder : (String → Option (List FileInfo)) → List String,
        ∀ rs : List FileInfo, keyOrder (group_by_type rs) = firstSeenKeys rs := by
  rintro ⟨keyOrder, h⟩
  have hAB := h [⟨"a", "A", false, some 1⟩, ⟨"b", "B", false, some 2⟩]
  have hBA := h [⟨"b", "B", false, some 2⟩, ⟨"a", "A", false, some 1⟩]
  have hmaps : group_by_type [⟨"a", "A", false, some 1⟩, ⟨"b", "B", false, some 2⟩] =
      group_by_type [⟨"b", "B", false, some 2⟩, ⟨"a", "A", false, some 1⟩] := by
    funext d
    simp only [group_by_type, List.foldl_cons, List.foldl_nil]
    by_cases hA : d = "A"
    · subst hA
      simp
    · by_cases hB : d = "B"
      · subst hB
        simp
      · simp [hA, hB]
  rw [hmaps, hBA] at hAB
  have hk1 : firstSeenKeys [⟨"b", "B", false, some 2⟩, ⟨"a", "A", false, some 1⟩] =
      ["B", "A"] := by decide
  have hk2 : firstSeenKeys [⟨"a", "A", false, some 1⟩, ⟨"b", "B", false, some 2⟩] =
      ["A", "B"] := by decide
  rw [hk1, hk2] at hAB
  exact absurd hAB (by decide)

/-- Metadata of a path as exposed by the filesystem interface of the spec:
whether it denotes a directory and its length in bytes. -/
structure Metadata where
  isDir : Bool
  len : Nat
deriving DecidableEq

/-- The filesystem collaborator: `metadata` mirrors `fs::metadata` (its
`Except` error is the opaque `io::Error` payload), `readAll` mirrors
`fs::read`, and `walk` mirrors iterating `WalkDir::new(path)`, yielding
one `Result`-per-entry like the `walkdir` iterator does. -/
structure FS where
  metadata : String → Except String Metadata
  readAll : String → Except String (List Nat)
  walk : String → List (Except String String)

/-- Mirrors `Path::exists`, which is `fs::metadata(path).is_ok()`. -/
def pathExists (fs : FS) (p : String) : Bool :=
  match fs.metadata p with
  | .ok _ => true
  | .error _ => false

/-- Mirrors `Path::is_dir`, which is `fs::metadata(path)` mapped through
`is_dir` with errors collapsed to `false`. -/
def isDirPath (fs : FS) (p : String) : Bool :=
  match fs.metadata p with
  | .ok m => m.isDir
  | .error _ => false

/-- Mirrors `create_directory_info` in src/src/lib.rs. -/
def create_directory_info (path : String) : FileInfo :=
  ⟨path, "Directory", true, none⟩

/-- Mirrors `identify_file_from_path` in src/src/lib.rs: stat the path,
return a directory record for directories, otherwise read the whole file,
classify the bytes (falling back to "Unknown file type"), and report the
metadata length as the size. -/
def identify_file_from_path (table : List SignatureEntry)
    (oracle : List Nat → Option String) (fs : FS) (path : String) :
    Except FileProcessingError FileInfo :=
  match fs.metadata path with
  | .error e => .error (.ioError e)
  | .ok metadata =>
    if metadata.isDir then .ok (create_directory_info path)
    else
      match fs.readAll path with
      | .error e => .error (.ioError e)
      | .ok bytes =>
        .ok ⟨path,
          (match identify_from_bytes table oracle bytes with
           | some info => info.description
           | none => "Unknown file type"),
          false, some metadata.len⟩

/-- Mirrors `identify_multiple` in src/src/lib.rs: for each path in input
order, fail with `PathNotFound` if it does not exist, otherwise resolve it
and append the record. -/
def identify_multiple (table : List SignatureEntry)
    (oracle : List Nat → Option String) (fs : FS) :
    List String → Except FileProcessingError (List FileInfo)
  | [] => .ok []
  | p :: ps =>
    if pathExists fs p then
      match identify_file_from_path table oracle fs p with
      | .error e => .error e
      | .ok info =>
        match identify_multiple table oracle fs ps with
        | .error e => .error e
        | .ok rest => .ok (info :: rest)
    else .error (.pathNotFound p)

/-- The `for entry in WalkDir::new(path)` loop of `identify_recursive`:
each walk item is either a walk error (aborting with `WalkDir`) or an entry
path resolved via `identify_file_from_path`. -/
def walkLoop (table : List SignatureEntry)
    (oracle : List Nat → Option String) (fs : FS) :
    List (Except String String) → Except FileProcessingError (List FileInfo)
  | [] => .ok []
  | .error e :: _ => .error (.walkDirError e)
  | .ok q :: rest =>
    match identify_file_from_path table oracle fs q with
    | .error e => .error e
    | .ok info =>
      match walkLoop table oracle fs rest with
      | .error e => .error e
      | .ok tail => .ok (info :: tail)

/-- Mirrors `identify_recursive` in src/src/lib.rs: existence check, then
walk the tree and resolve every visited entry. -/
def identify_recursive (table : List SignatureEntry)
    (oracle : List Nat → Option String) (fs : FS) (path : String) :
    Except FileProcessingError (List FileInfo) :=
  if pathExists fs path then walkLoop table oracle fs (fs.walk path)
  else .error (.pathNotFound path)

/-- Mirrors `identify_multiple_recursive` in src/src/lib.rs: for each path
in input order, fail with `PathNotFound` if it does not exist; extend the
results with the recursive walk for directories, or push the single record
for files. -/
def identify_multiple_recursive (table : List SignatureEntry)
    (oracle : List Nat → Option String) (fs : FS) :
    List String → Except FileProcessingError (List FileInfo)
  | [] => .ok []
  | p :: ps =>
    if pathExists fs p then
      if isDirPath fs p then
        match identify_recursive table oracle fs p with
        | .error e => .error e
        | .ok rs =>
          match identify_multiple_recursive table oracle fs ps with
          | .error e => .error e
          | .ok rest => .ok (rs ++ rest)
      else
        match identify_file_from_path table oracle fs p with
        | .error e => .error e
        | .ok info =>
          match identify_multiple_recursive table oracle fs ps with
          | .error e => .error e
          | .ok rest => .ok (info :: rest)
    else .error (.pathNotFound p)

/-- Filesystem used by several witnesses: "a" is a 100-byte file whose
content reads as the 3 bytes [1, 2, 3] (read size differing from stat
size), "d" is a directory whose read would even fail, and every other path
does not exist. The walk of "d" visits "d" and then "a". -/
def fsW : FS where
  metadata := fun p =>
    if p = "a" then .ok ⟨false, 100⟩
    else if p = "d" then .ok ⟨true, 0⟩
    else .error "stat failed"
  readAll := fun p =>
    if p = "a" then .ok [1, 2, 3] else .error "read failed"
  walk := fun p =>
    if p = "d" then [.ok "d", .ok "a"] else [.error "walk failed"]

/-- C4: for every path whose filesystem metadata denotes a directory,
`identify_file_from_path` returns the directory record — `is_directory =
true`, `size` absent, description exactly "Directory" — without reading
bytes or invoking the byte matcher: the result is the same for every
signature table, every oracle and every behavior of `readAll`/`walk` (so
for arbitrary directory contents). -/
theorem identify_file_from_path_directory (table : List SignatureEntry)
    (oracle : List Nat → Option String) (fs : FS) (p : String) (m : Metadata)
    (hm : fs.metadata p = .ok m) (hd : m.isDir = true) :
    identify_file_from_path table oracle fs p = .ok (create_directory_info p) ∧
      (create_directory_info p).is_directory = true ∧
      (create_directory_info p).size = none ∧
      (create_directory_info p).description = "Directory" := by
  refine ⟨?_, rfl, rfl, rfl⟩
  rw [identify_file_from_path, hm]
  simp [hd]

/-- Witness for C4: on the directory "d" of `fsW` (whose `readAll` fails
and whose walk is nonempty), the resolver returns the directory record. -/
theorem identify_file_from_path_directory_witness :
    identify_file_from_path spec_example_table noOracle fsW "d" =
        .ok (create_directory_info "d") ∧
      (create_directory_info "d").is_directory = true ∧
      (create_directory_info "d").size = none ∧
      (create_directory_info "d").description = "Directory" :=
  identify_file_from_path_directory spec_example_table noOracle fsW "d"
    ⟨true, 0⟩ rfl rfl

/-- C8: for every existing non-directory path, the record returned by the
path resolver reports as size the filesystem metadata length of the path,
not the length of the byte buffer that was read and matched — even when the
two differ. -/
theorem identify_file_from_path_size_from_metadata (table : List SignatureEntry)
    (oracle : List Nat → Option String) (fs : FS) (p : String) (m : Metadata)
    (bytes : List Nat) (hm : fs.metadata p = .ok m) (hd : m.isDir = false)
    (hr : fs.readAll p = .ok bytes) :
    ∃ r, identify_file_from_path table oracle fs p = .ok r ∧ r.size = some m.len := by
  refine ⟨⟨p,
    (match identify_from_bytes table oracle bytes with
     | some info => info.description
     | none => "Unknown file type"), false, some m.len⟩, ?_, rfl⟩
  rw [identify_file_from_path, hm]
  simp [hd, hr]

/-- Witness for C8: the file "a" of `fsW` stats as 100 bytes but reads as 3
bytes, and the returned size is the 100 of the metadata, not 3. -/
theorem identify_file_from_path_size_from_metadata_witness :
    (∃ r, identify_file_from_path spec_example_table noOracle fsW "a" = .ok r ∧
       r.size = some 100) ∧ (3 : Nat) ≠ 100 :=
  ⟨identify_file_from_path_size_from_metadata spec_example_table noOracle fsW "a"
      ⟨false, 100⟩ [1, 2, 3] rfl rfl rfl,
    by decide⟩

/-- Filesystem for the C3 counterexample: "a" exists as a file but its read
fails with an I/O error, and no other path exists. -/
def fsC3 : FS where
  metadata := fun p => if p = "a" then .ok ⟨false, 1⟩ else .error "stat failed"
  readAll := fun _ => .error "read failed"
  walk := fun _ => []

/-- Counterexample for C3: in the list ["a", "b"] the path "b" does not
exist, yet `identify_multiple` does not fail with `PathNotFound "b"`: the
earlier existing path "a" fails its read first, so the call fails with the
I/O error instead. The claim's first half lacks the proviso that the paths
before the first missing one resolve without error. -/
theorem identify_multiple_io_error_preempts_missing :
    pathExists fsC3 "a" = true ∧ pathExists fsC3 "b" = false ∧
    identify_multiple spec_example_table noOracle fsC3 ["a", "b"] =
      .error (.ioError "read failed") ∧
    identify_multiple spec_example_table noOracle fsC3 ["a", "b"] ≠
      .error (.pathNotFound "b") := by
  refine ⟨rfl, rfl, rfl, ?_⟩
  intro h
  rw [show identify_multiple spec_example_table noOracle fsC3 ["a", "b"] =
      .error (.ioError "read failed") from rfl] at h
  exact FileProcessingError.noConfusion (Except.error.inj h)

/-- C3 (amended): if some path of the input does not exist and every path
before the first such one exists and resolves without error, then
`identify_multiple` fails with `PathNotFound` naming exactly that first
missing path (and yields no partial result); and if every path exists and
resolves without I/O error, it returns one record per path in input
order. -/
theorem identify_multiple_spec (table : List SignatureEntry)
    (oracle : List Nat → Option String) (fs : FS) :
    (∀ pre p post, (∀ q ∈ pre, pathExists fs q = true ∧
        ∃ fi, identify_file_from_path table oracle fs q = .ok fi) →
      pathExists fs p = false →
      identify_multiple table oracle fs (pre ++ p :: post) =
        .error (.pathNotFound p)) ∧
    (∀ paths : List String, (∀ q ∈ paths, pathExists fs q = true ∧
        ∃ fi, identify_file_from_path table oracle fs q = .ok fi) →
      ∃ rs, identify_multiple table oracle fs paths = .ok rs ∧
        rs.length = paths.length ∧
        ∀ i (h1 : i < paths.length) (h2 : i < rs.length),
          identify_file_from_path table oracle fs (paths.get ⟨i, h1⟩) =
            .ok (rs.get ⟨i, h2⟩)) := by
  constructor
  · intro pre
    induction pre with
    | nil =>
      intro p post _ hp
      simp [identify_multiple, hp]
    | cons q pre ih =>
      intro p post hall hp
      obtain ⟨hq, fi, hfi⟩ := hall q (List.mem_cons_self q pre)
      have hrest := ih p post (fun x hx => hall x (List.mem_cons_of_mem q hx)) hp
      have hrest2 : identify_multiple table oracle fs (pre.append (p :: post)) =
          .error (.pathNotFound p) := hrest
      simp only [List.cons_append, identify_multiple, hq, if_true, hfi, hrest, hrest2]
  · intro paths
    induction paths with
    | nil =>
      intro _
      exact ⟨[], rfl, rfl, fun i h1 => absurd h1 (Nat.not_lt_zero i)⟩
    | cons p ps ih =>
      intro hall
      obtain ⟨hp, fi, hfi⟩ := hall p (List.mem_cons_self p ps)
      obtain ⟨rs, hrs, hlen, hidx⟩ := ih (fun x hx => hall x (List.mem_cons_of_mem p hx))
      refine ⟨fi :: rs, ?_, by simpa using hlen, ?_⟩
      · simp only [identify_multiple, hp, if_true, hfi, hrs]
      · intro i h1 h2
        cases i with
        | zero => simpa using hfi
        | succ n =>
          have hn1 : n < ps.length := by simpa using h1
          have hn2 : n < rs.length := by simpa using h2
          simpa using hidx n hn1 hn2

/-- Witness for C3 (amended): on `fsW`, the batch ["a", "b"] fails with
`PathNotFound "b"` after "a" resolves cleanly, and the batch ["a"] succeeds
with one record for its one path. -/
theorem identify_multiple_spec_witness :
    identify_multiple spec_example_table noOracle fsW ["a", "b"] =
      .error (.pathNotFound "b") ∧
    ∃ rs, identify_multiple spec_example_table noOracle fsW ["a"] = .ok rs ∧
      rs.length = ["a"].length ∧
      ∀ i (h1 : i < ["a"].length) (h2 : i < rs.length),
        identify_file_from_path spec_example_table noOracle fsW
            (["a"].get ⟨i, h1⟩) = .ok (rs.get ⟨i, h2⟩) := by
  have hres : ∀ q ∈ ["a"], pathExists fsW q = true ∧
      ∃ fi, identify_file_from_path spec_example_table noOracle fsW q = .ok fi := by
    intro q hq
    have hq2 : q = "a" := by simpa using hq
    subst hq2
    exact ⟨rfl, ⟨_, rfl⟩⟩
  exact ⟨(identify_multiple_spec spec_example_table noOracle fsW).1 ["a"] "b" []
      hres rfl,
    (identify_multiple_spec spec_example_table noOracle fsW).2 ["a"] hres⟩

/-- C7: whenever `identify_multiple_recursive` succeeds, its result is the
concatenation of one contiguous block per input path, in input order: every
path exists, a directory path contributes its full recursive-tree result as
its block, and a file path contributes exactly one record. -/
theorem identify_multiple_recursive_spec (table : List SignatureEntry)
    (oracle : List Nat → Option String) (fs : FS) :
    ∀ (paths : List String) (rs : List FileInfo),
      identify_multiple_recursive table oracle fs paths = .ok rs →
      ∃ parts : List (List FileInfo), rs = parts.join ∧
        parts.length = paths.length ∧
        ∀ i (h1 : i < paths.length) (h2 : i < parts.length),
          pathExists fs (paths.get ⟨i, h1⟩) = true ∧
          (if isDirPath fs (paths.get ⟨i, h1⟩) then
            identify_recursive table oracle fs (paths.get ⟨i, h1⟩) =
              .ok (parts.get ⟨i, h2⟩)
          else ∃ fi, identify_file_from_path table oracle fs (paths.get ⟨i, h1⟩) =
              .ok fi ∧ parts.get ⟨i, h2⟩ = [fi]) := by
  intro paths
  induction paths with
  | nil =>
    intro rs h
    have hrs : rs = [] := (Except.ok.inj h).symm
    subst hrs
    exact ⟨[], rfl, rfl, fun i h1 => absurd h1 (Nat.not_lt_zero i)⟩
  | cons p ps ih =>
    intro rs h
    rw [identify_multiple_recursive] at h
    by_cases hex : pathExists fs p = true
    · rw [if_pos hex] at h
      by_cases hdir : isDirPath fs p = true
      · rw [if_pos hdir] at h
        cases hrec : identify_recursive table oracle fs p with
        | error e => rw [hrec] at h; exact Except.noConfusion h
        | ok rsp =>
          rw [hrec] at h
          cases hrest : identify_multiple_recursive table oracle fs ps with
          | error e => rw [hrest] at h; exact Except.noConfusion h
          | ok rest =>
            rw [hrest] at h
            have hrs : rs = rsp ++ rest := (Except.ok.inj h).symm
            obtain ⟨parts, hjoin, hlen, hidx⟩ := ih rest hrest
            refine ⟨rsp :: parts, by simp [hrs, hjoin], by simpa using hlen, ?_⟩
            intro i h1 h2
            cases i with
            | zero =>
              refine ⟨hex, ?_⟩
              simpa [hdir] using hrec
            | succ n =>
              have hn1 : n < ps.length := by simpa using h1
              have hn2 : n < parts.length := by simpa using h2
              simpa using hidx n hn1 hn2
      · rw [if_neg hdir] at h
        cases hfi : identify_file_from_path table oracle fs p with
        | error e => rw [hfi] at h; exact Except.noConfusion h
        | ok fi =>
          rw [hfi] at h
          cases hrest : identify_multiple_recursive table oracle fs ps with
          | error e => rw [hrest] at h; exact Except.noConfusion h
          | ok rest =>
            rw [hrest] at h
            have hrs : rs = fi :: rest := (Except.ok.inj h).symm
            obtain ⟨parts, hjoin, hlen, hidx⟩ := ih rest hrest
            refine ⟨[fi] :: parts, by simp [hrs, hjoin], by simpa using hlen, ?_⟩
            intro i h1 h2
            cases i with
            | zero =>
              refine ⟨hex, ?_⟩
              simp only [List.get]
              rw [if_neg (by simpa using hdir)]
              exact ⟨fi, hfi, by simp⟩
            | succ n =>
              have hn1 : n < ps.length := by simpa using h1
              have hn2 : n < parts.length := by simpa using h2
              simpa using hidx n hn1 hn2
    · rw [if_neg hex] at h
      exact Except.noConfusion h

/-- Witness for C7: on `fsW`, the batch ["d", "a"] succeeds; "d" is a
directory whose recursive walk contributes the contiguous block of two
records, and the file "a" contributes exactly one record after it. -/
theorem identify_multiple_recursive_spec_witness :
    ∃ parts : List (List FileInfo),
      [FileInfo.mk "d" "Directory" true none,
        FileInfo.mk "a" "Unknown file type" false (some 100),
        FileInfo.mk "a" "Unknown file type" false (some 100)] = parts.join ∧
      parts.length = ["d", "a"].length ∧
      ∀ i (h1 : i < ["d", "a"].length) (h2 : i < parts.length),
        pathExists fsW (["d", "a"].get ⟨i, h1⟩) = true ∧
        (if isDirPath fsW (["d", "a"].get ⟨i, h1⟩) then
          identify_recursive spec_example_table noOracle fsW (["d", "a"].get ⟨i, h1⟩) =
            .ok (parts.get ⟨i, h2⟩)
        else ∃ fi, identify_file_from_path spec_example_table noOracle fsW
            (["d", "a"].get ⟨i, h1⟩) = .ok fi ∧ parts.get ⟨i, h2⟩ = [fi]) :=
  identify_multiple_recursive_spec spec_example_table noOracle fsW ["d", "a"]
    [⟨"d", "Directory", true, none⟩,
      ⟨"a", "Unknown file type", false, some 100⟩,
      ⟨"a", "Unknown file type", false, some 100⟩] rfl
